import Mathlib

/-!
Shallow embedding of the core of the claude_brain indexing engine
(src/claude_brain): boundary-aware chunking (text_chunker.py), structural
summarisation and file processing (file_processor.py), token-budgeted
batched embedding (embeddings/embedding_store.py), retrieval ranking
(embeddings/retrieval_engine.py) and drift detection (drift_monitor.py).

Python strings are modelled as `List Char` where character-level slicing
matters and as `String` for identifiers and joined output.  External
collaborators (the OpenAI embedding provider, the tiktoken tokenizer, the
CPython `ast` parser and the `re` regex engine where its output is a plain
list of captured names) enter as explicit parameters or as faithfully
derived scanning functions; everything else is translated line by line
from the source.
-/

namespace ClaudeBrain

/-- Python `\s` / `str.strip()` whitespace, restricted to the ASCII
whitespace characters (space, tab, newline, carriage return, vertical tab,
form feed); the sources are ASCII so the unicode cases never arise. -/
def pyIsSpace (c : Char) : Bool :=
  c = ' ' || c = '\t' || c = '\n' || c = '\r' || c = '\x0b' || c = '\x0c'

/-- Python `str.strip()`: drop whitespace from both ends. -/
def pyStrip (l : List Char) : List Char :=
  ((l.dropWhile pyIsSpace).reverse.dropWhile pyIsSpace).reverse

/-- Python `str.split(sep)` for a one-character separator: no collapsing of
adjacent separators, and the empty string splits to `[""]`. -/
def pySplitOnChar (c : Char) : List Char → List (List Char)
  | [] => [[]]
  | x :: xs =>
    if x = c then [] :: pySplitOnChar c xs
    else
      match pySplitOnChar c xs with
      | h :: t => (x :: h) :: t
      | [] => [[x]]

/-- Index of the last character satisfying `p`, if any. -/
def lastIdxWhere (p : Char → Bool) : List Char → Option Nat
  | [] => none
  | c :: cs =>
    match lastIdxWhere p cs with
    | some i => some (i + 1)
    | none => if p c then some 0 else none

/-- Index of the last position `i` at which a match of the regex
`[.!?]\s+` of text_chunker.py line 45 can start: a sentence-ending
punctuation character immediately followed by a whitespace character.
Because every match of that pattern consists of one punctuation character
followed by whitespace only, no candidate start position can fall inside
an earlier match, so the last match found by `re.finditer` starts exactly
at the last such position. -/
def lastSentCandIdx : List Char → Option Nat
  | [] => none
  | [_] => none
  | a :: b :: rest =>
    match lastSentCandIdx (b :: rest) with
    | some i => some (i + 1)
    | none =>
      if (a = '.' || a = '!' || a = '?') && pyIsSpace b then some 0 else none

/-- End offset of the last `re.finditer` match of `[.!?]\s+`
(text_chunker.py lines 45-50): the greedy `\s+` extends the last match
through the maximal whitespace run after the punctuation character. -/
def findLastSentenceEnd (s : List Char) : Option Nat :=
  match lastSentCandIdx s with
  | some i => some (i + 1 + ((s.drop (i + 1)).takeWhile pyIsSpace).length)
  | none => none

/-- Scanner for `re.finditer` over the pattern `\n\s*\n` of
text_chunker.py line 53, returning the end offset of the last match.
At scan position `p` a match requires the character to be a newline; the
greedy, backtracking `\s*` then reaches up to the last newline inside the
maximal whitespace run that follows (the character after that run is not
whitespace, so the final `\n` of the pattern must fall inside the run);
the scan resumes after the match. -/
def paraScan (s : List Char) (p : Nat) (lastEnd : Option Nat) : Option Nat :=
  if h : p < s.length then
    if s.getD p 'A' = '\n' then
      match lastIdxWhere (fun c => c = '\n') ((s.drop (p + 1)).takeWhile pyIsSpace) with
      | some k => paraScan s (p + k + 2) (some (p + k + 2))
      | none => paraScan s (p + 1) lastEnd
    else paraScan s (p + 1) lastEnd
  else lastEnd
termination_by s.length - p
decreasing_by all_goals omega

/-- End offset of the last `re.finditer` match of `\n\s*\n`. -/
def findLastParagraphEnd (s : List Char) : Option Nat :=
  paraScan s 0 none

/-- End offset of the last `re.finditer` match of `\n`
(text_chunker.py lines 59-62): one past the last newline. -/
def findLastNewlineEnd (s : List Char) : Option Nat :=
  match lastIdxWhere (fun c => c = '\n') s with
  | some i => some (i + 1)
  | none => none

/-- TextChunker._find_sentence_boundary (text_chunker.py lines 42-64):
on the slice `text[s:e]`, return `s` plus the end of the last sentence
ending, else of the last paragraph break, else of the last line break,
else return `e` unchanged. -/
def find_sentence_boundary (text : List Char) (s e : Nat) : Nat :=
  let slice := (text.drop s).take (e - s)
  match findLastSentenceEnd slice with
  | some m => s + m
  | none =>
    match findLastParagraphEnd slice with
    | some m => s + m
    | none =>
      match findLastNewlineEnd slice with
      | some m => s + m
      | none => e

/-- TextChunker construction state (text_chunker.py lines 4-7). -/
structure TextChunker where
  chunk_size : Nat
  overlap : Nat
deriving DecidableEq

/-- Chunk metadata id (text_chunker.py lines 33 and 87): the pattern
`{source_info}_chunk_{chunk_num}`, or `chunk_{chunk_num}` when
`source_info` is falsy (empty). -/
def chunkMeta (sourceInfo : String) (n : Nat) : String :=
  if sourceInfo ≠ "" then sourceInfo ++ "_chunk_" ++ toString n
  else "chunk_" ++ toString n

/-- The adjusted window end of one chunk_text iteration
(text_chunker.py lines 22-29): the naive end `start + chunk_size`,
replaced by a sentence boundary searched backward over at most the last
200 characters when one is found past `start`, and only while the naive
end lies strictly inside the text. -/
def windowEnd (ck : TextChunker) (text : List Char) (start : Nat) : Nat :=
  let e0 := start + ck.chunk_size
  if e0 < text.length then
    let sb := find_sentence_boundary text (max start (e0 - 200)) e0
    if start < sb then sb else e0
  else e0

/-- The next window start (text_chunker.py line 38):
`start = max(start + 1, end - self.overlap)`. -/
def nextStart (ck : TextChunker) (text : List Char) (start : Nat) : Nat :=
  max (start + 1) (windowEnd ck text start - ck.overlap)

/-- The chunk_text while-loop (text_chunker.py lines 21-38).  Returns the
emitted `(chunk, metadata)` pairs together with the trace of window start
offsets, one per loop iteration. -/
def chunkTextGo (ck : TextChunker) (text : List Char) (sourceInfo : String)
    (start chunkNum : Nat) : List (List Char × String) × List Nat :=
  if start < text.length then
    let e := windowEnd ck text start
    let chunk := pyStrip ((text.drop start).take (e - start))
    let rest := chunkTextGo ck text sourceInfo (nextStart ck text start)
      (if chunk ≠ [] then chunkNum + 1 else chunkNum)
    (if chunk ≠ [] then (chunk, chunkMeta sourceInfo chunkNum) :: rest.1 else rest.1,
     start :: rest.2)
  else ([], [])
termination_by text.length - start
decreasing_by
  have : start + 1 ≤ nextStart ck text start := le_max_left _ _
  omega

/-- TextChunker.chunk_text (text_chunker.py lines 9-40): a text no longer
than `chunk_size` is returned whole under the bare `source_info` id;
otherwise the sliding window loop runs from offset 0. -/
def TextChunker.chunk_text (ck : TextChunker) (text : List Char)
    (sourceInfo : String) : List (List Char × String) :=
  if text.length ≤ ck.chunk_size then [(text, sourceInfo)]
  else (chunkTextGo ck text sourceInfo 0 0).1

/-- The window start trace of a chunk_text call on a text longer than
`chunk_size`. -/
def chunkTextStarts (ck : TextChunker) (text : List Char)
    (sourceInfo : String) : List Nat :=
  (chunkTextGo ck text sourceInfo 0 0).2

/-- The regex `^\s*(def|class|function|const|let|var)\s+` of
text_chunker.py line 81: optional leading whitespace, one of the keywords,
then at least one whitespace character.  The keywords contain no
whitespace and none is a prefix of another, so the greedy `\s*` always
stops exactly at the first non-whitespace character. -/
def is_function_start (line : List Char) : Bool :=
  let rest := line.dropWhile pyIsSpace
  ["def", "class", "function", "const", "let", "var"].any fun kw =>
    kw.data.isPrefixOf rest &&
      match rest.drop kw.length with
      | c :: _ => pyIsSpace c
      | [] => false

/-- Python `current_chunk[-5:] if len(current_chunk) > 5 else
current_chunk` (text_chunker.py line 97); both branches equal the last
five lines (or all of them when there are fewer). -/
def lastFive (l : List (List Char)) : List (List Char) :=
  if l.length > 5 then l.drop (l.length - 5) else l

/-- Python `len(line) + 1` (text_chunker.py line 78). -/
def lineSize (line : List Char) : Nat := line.length + 1

/-- The chunk_code for-loop and final flush (text_chunker.py lines
77-108), keeping each emitted fragment as its list of lines (the source
joins with newlines at emission; the join is applied once at the end in
`TextChunker.chunk_code`). State: the pending lines `cur`, their
accumulated size `curSize` and the next chunk number. -/
def chunkCodeGo (ck : TextChunker) (sourceInfo : String) :
    List (List Char) → List (List Char) → Nat → Nat →
    List (List (List Char) × String)
  | [], cur, _, num =>
    if cur ≠ [] then [(cur, chunkMeta sourceInfo num)] else []
  | line :: restLines, cur, curSize, num =>
    if curSize + lineSize line > ck.chunk_size ∧ cur ≠ [] then
      (cur, chunkMeta sourceInfo num) ::
        (if is_function_start line then
          chunkCodeGo ck sourceInfo restLines [line] (lineSize line) (num + 1)
        else
          let ov := lastFive cur
          chunkCodeGo ck sourceInfo restLines (ov ++ [line])
            ((ov ++ [line]).map lineSize).sum (num + 1))
    else
      chunkCodeGo ck sourceInfo restLines (cur ++ [line])
        (curSize + lineSize line) num

/-- TextChunker.chunk_code (text_chunker.py lines 66-110) at the level of
line lists: split the code on newlines and run the accumulation loop with
an empty pending fragment. -/
def TextChunker.chunkCodeChunks (ck : TextChunker) (code : List Char)
    (sourceInfo : String) : List (List (List Char) × String) :=
  chunkCodeGo ck sourceInfo (pySplitOnChar '\n' code) [] 0 0

/-- TextChunker.chunk_code: each emitted fragment is its lines joined
with newlines, exactly as `'\n'.join(current_chunk)` at each emission
site. -/
def TextChunker.chunk_code (ck : TextChunker) (code : List Char)
    (sourceInfo : String) : List (List Char × String) :=
  (ck.chunkCodeChunks code sourceInfo).map fun p =>
    (List.intercalate ['\n'] p.1, p.2)

/-- FileProcessor construction (file_processor.py lines 8-13): the stored
chunker is built from `min(chunk_size, 800)` and `min(overlap, 150)`. -/
structure FileProcessor where
  chunker : TextChunker
deriving DecidableEq

/-- FileProcessor.__init__ (file_processor.py lines 8-13). Ignore-pattern
loading touches the filesystem and does not affect the chunker. -/
def FileProcessor.init (chunk_size overlap : Nat) : FileProcessor :=
  { chunker := { chunk_size := min chunk_size 800, overlap := min overlap 150 } }

/-- A top-level node of the CPython ast, as far as
FileProcessor._extract_python_structure (file_processor.py lines 198-224)
distinguishes them: class definitions (with the names of their direct
FunctionDef children), function definitions (with argument names), the
two import statement forms, and every other node kind, which contributes
no summary line. -/
inductive PyTopDecl where
  | classDef (name : String) (methods : List String)
  | funcDef (name : String) (args : List String)
  | importStmt (modules : List String)
  | importFrom (module : String) (names : List String)
  | otherNode
deriving DecidableEq

/-- Python `', '.join(...)`. -/
def joinComma (l : List String) : String := String.intercalate ", " l

/-- The summary lines contributed by one top-level node
(file_processor.py lines 204-220). -/
def declLines : PyTopDecl → List String
  | .classDef name methods =>
    ("Class: " ++ name) ::
      (if methods ≠ [] then ["  Methods: " ++ joinComma methods] else [])
  | .funcDef name args => ["Function: " ++ name ++ "(" ++ joinComma args ++ ")"]
  | .importStmt modules => ["Import: " ++ joinComma modules]
  | .importFrom m names => ["From " ++ m ++ " import: " ++ joinComma names]
  | .otherNode => []

/-- FileProcessor._extract_python_structure (file_processor.py lines
198-224).  The external CPython parser is a parameter: `none` models
`ast.parse` raising (the bare except returns the empty string), `some
decls` models success with the listed top-level nodes.  On success the
summary is the file header line followed by the per-node lines, joined
with newlines and returned unconditionally. -/
def extract_python_structure (parsed : Option (List PyTopDecl))
    (filepath : String) : String :=
  match parsed with
  | none => ""
  | some decls =>
    String.intercalate "\n" (("File: " ++ filepath) :: decls.flatMap declLines)

/-- The four `re.findall` result lists of
FileProcessor._extract_js_structure (file_processor.py lines 232-254):
captured names of function declarations, arrow-function bindings, class
declarations and export declarations.  The regex engine is an external
collaborator; its output lists are the parameter. -/
structure JsMatches where
  functions : List String
  arrows : List String
  classes : List String
  exports : List String
deriving DecidableEq

/-- FileProcessor._extract_js_structure (file_processor.py lines
226-256): the header line plus one line per non-empty category, joined
with newlines, but the empty string when only the header line was
produced (`if len(summary) > 1 else ""`). -/
def extract_js_structure (m : JsMatches) (filepath : String) : String :=
  let summary := ("File: " ++ filepath) ::
    ((if m.functions ≠ [] then ["Functions: " ++ joinComma m.functions] else []) ++
     (if m.arrows ≠ [] then ["Arrow Functions: " ++ joinComma m.arrows] else []) ++
     (if m.classes ≠ [] then ["Classes: " ++ joinComma m.classes] else []) ++
     (if m.exports ≠ [] then ["Exports: " ++ joinComma m.exports] else []))
  if summary.length > 1 then String.intercalate "\n" summary else ""

/-- FileProcessor._process_python (file_processor.py lines 119-134): chunk
the code, and when the extracted summary is non-empty insert it at
position zero under the id `{filepath}_summary`. The file content read
from disk is the `content` parameter. -/
def process_python (fp : FileProcessor) (parsed : Option (List PyTopDecl))
    (content : List Char) (filepath : String) : List (List Char × String) :=
  let summary := extract_python_structure parsed filepath
  let chunks := fp.chunker.chunk_code content filepath
  if summary ≠ "" then (summary.data, filepath ++ "_summary") :: chunks
  else chunks

/-- FileProcessor._process_javascript (file_processor.py lines 136-148):
same shape as the Python path, with the regex-based summariser. -/
def process_javascript (fp : FileProcessor) (m : JsMatches)
    (content : List Char) (filepath : String) : List (List Char × String) :=
  let summary := extract_js_structure m filepath
  let chunks := fp.chunker.chunk_code content filepath
  if summary ≠ "" then (summary.data, filepath ++ "_summary") :: chunks
  else chunks

/-- Python `str.strip()` at the String level. -/
def pyStripStr (s : String) : String := String.mk (pyStrip s.data)

/-- An unpickled embedding vector.  The provider returns IEEE floats; the
embedding carries them as rationals, which is exact for every value the
claims touch (no arithmetic is performed on them in the pipeline). -/
abbrev Embedding := List ℚ

/-- A row of the embeddings table: (file, chunk, embedding)
(embedding_store.py line 52). -/
abbrev Row := String × String × Embedding

/-- get_embeddings_batch (embedding_store.py lines 28-47).  The OpenAI
client is the `provider` parameter, returning one embedding per input
text in order.  An empty input list, or one whose texts are all falsy or
whitespace-only, short-circuits to no call and an empty result. -/
def get_embeddings_batch (provider : List String → List Embedding)
    (texts : List String) : List Embedding :=
  if texts = [] then []
  else
    let valid_texts := texts.filter fun t => t ≠ "" && pyStripStr t ≠ ""
    if valid_texts = [] then [] else provider valid_texts

/-- The batch-slicing recursion of the `range(0, len, batch_size)` loop,
structurally recursive on a fuel parameter: each step consumes at least
one element (the step size is positive on every reachable branch), so a
fuel equal to the initial list length always suffices and the zero-fuel
branch with a non-empty list is never reached from `outerBatches`. -/
def outerBatchesGo (batchSize : Nat) : Nat → List α → List (List α)
  | _, [] => []
  | 0, _ :: _ => []
  | fuel + 1, x :: xs =>
    if batchSize = 0 then []
    else (x :: xs).take batchSize :: outerBatchesGo batchSize fuel ((x :: xs).drop batchSize)

/-- Python `for i in range(0, len(l), batch_size): l[i:i+batch_size]`
(embedding_store.py line 82): the successive count-based outer batches.
A zero step makes `range` raise in Python before any batch is formed;
that case is modelled as producing no batches. -/
def outerBatches (batchSize : Nat) (l : List α) : List (List α) :=
  outerBatchesGo batchSize l.length l

/-- The token estimate of a sub-batch: the sum of the per-text estimates,
which is exactly the value of the running `current_tokens` counter at the
moment the sub-batch is closed (embedding_store.py lines 89-116). -/
def tokSum (est : String → Nat) (b : List (String × String)) : Nat :=
  (b.map fun p => est p.1).sum

/-- The result of one process_texts_batch call: the rows appended to the
store in order, the final value of the `total_processed` local, the
sub-batches passed to get_embeddings_batch in order (each paired list of
texts and metadata), and the value the Python function returns. -/
structure ProcessResult where
  rows : List Row
  totalProcessed : Nat
  calls : List (List (String × String))
  retVal : Option Nat
deriving DecidableEq

/-- One flush of the current sub-batch (embedding_store.py lines 104-112
and 119-125): call the provider on the batch texts, zip
`zip(zip(texts, metadata), embeddings)` into `(meta, txt, emb)` items
(the zip truncates to the shorter side when the provider filtered empty
texts), and insert them counting `total_processed` when non-empty. -/
def flushBatch (provider : List String → List Embedding)
    (cur : List (String × String)) : List Row × Nat :=
  let texts := cur.map fun p => p.1
  let metadata := cur.map fun p => p.2
  let embeddings := get_embeddings_batch provider texts
  let items := ((texts.zip metadata).zip embeddings).map fun q =>
    (q.1.2, q.1.1, q.2)
  if items ≠ [] then (items, items.length) else ([], 0)

/-- The inner token-budget loop over one outer batch (embedding_store.py
lines 87-125): accumulate fragments into the current sub-batch; when
adding the next fragment would push the running token count over 4000 and
the sub-batch is non-empty, flush it; after the loop, flush the non-empty
remainder.  Returns the rows written, the number of items counted, and
the trace of sub-batches sent to the provider. -/
def processBatchGo (est : String → Nat)
    (provider : List String → List Embedding) :
    List (String × String) → List (String × String) → Nat →
    List Row × Nat × List (List (String × String))
  | [], cur, _ =>
    if cur ≠ [] then
      let fl := flushBatch provider cur
      (fl.1, fl.2, [cur])
    else ([], 0, [])
  | (t, m) :: rest, cur, curTok =>
    let tt := est t
    if curTok + tt > 4000 ∧ cur ≠ [] then
      let fl := flushBatch provider cur
      let r := processBatchGo est provider rest [(t, m)] tt
      (fl.1 ++ r.1, fl.2 + r.2.1, cur :: r.2.2)
    else
      processBatchGo est provider rest (cur ++ [(t, m)]) (curTok + tt)

/-- process_texts_batch (embedding_store.py lines 79-125).  The tiktoken
estimate (with its `len(text) // 4` fallback) is the `est` parameter and
the OpenAI client the `provider` parameter.  The function body ends
without a return statement, so the Python call evaluates to None,
modelled as `retVal = none`; `total_processed` is the counter the body
accumulates. -/
def process_texts_batch (est : String → Nat)
    (provider : List String → List Embedding)
    (texts_with_metadata : List (String × String)) (batch_size : Nat) :
    ProcessResult :=
  let folded := (outerBatches batch_size texts_with_metadata).foldl
    (fun acc batch =>
      let r := processBatchGo est provider batch [] 0
      (acc.1 ++ r.1, acc.2.1 + r.2.1, acc.2.2 ++ r.2.2))
    ([], 0, [])
  { rows := folded.1, totalProcessed := folded.2.1, calls := folded.2.2,
    retVal := none }

/-- The per-file record of the drift cache and the filesystem walk
(drift_monitor.py lines 80-84): modification time, size and content
hash.  Only the hash is compared anywhere. -/
structure FileInfo where
  mtime : Int
  size : Nat
  hash : String
deriving DecidableEq

/-- A file-state snapshot: a Python dict from path to FileInfo, modelled
as an association list with the dict's (unique-by-construction) keys. -/
abbrev FileState := List (String × FileInfo)

/-- The key set of a snapshot (`set(state.keys())`). -/
def stateKeys (st : FileState) : List String := st.map fun p => p.1

/-- Dict access `state[path]['hash']`, defined on the paths present. -/
def hashAt (st : FileState) (p : String) : Option String :=
  (List.lookup p st).map fun i => i.hash

/-- DriftMonitor.detect_changes (drift_monitor.py lines 147-181) as a
function of the walked current state and the cached `files` mapping:
`new` and `deleted` are the key-set differences; `modified` holds the
paths present in both whose content hashes differ (mtime and size are
never consulted). Python iterates sets; the derived collections are kept
as filtered key lists, which represent the same sets. -/
def detect_changes (current cached : FileState) :
    List String × List String × List String :=
  let current_files := stateKeys current
  let cached_file_paths := stateKeys cached
  let new_files := current_files.filter fun p => ¬ p ∈ cached_file_paths
  let deleted_files := cached_file_paths.filter fun p => ¬ p ∈ current_files
  let modified_files := (current_files.filter fun p => p ∈ cached_file_paths).filter
    fun p => hashAt current p ≠ hashAt cached p
  (new_files, modified_files, deleted_files)

/-- First index at which `pat` occurs as a contiguous sublist, if any
(Python `pat in s` / `s.split(pat)[0]`). -/
def findSubstrIdx (pat : List Char) : List Char → Option Nat
  | [] => if pat = [] then some 0 else none
  | l@(_ :: tl) =>
    if pat.isPrefixOf l then some 0
    else (findSubstrIdx pat tl).map fun i => i + 1

/-- The suffix stripping of DriftMonitor.get_database_files
(drift_monitor.py lines 195-201): when `'_chunk_' in file_chunk`, keep
the part before the first occurrence (`split('_chunk_')[0]`); otherwise
keep the value unchanged.  No other suffix is stripped. -/
def stripChunkSuffix (s : String) : String :=
  match findSubstrIdx "_chunk_".data s.data with
  | some i => String.mk (s.data.take i)
  | none => s

/-- DriftMonitor.get_database_files (drift_monitor.py lines 183-205) as a
function of the distinct `file` column values: strip each and collect
into a set (deduplicated list). -/
def get_database_files (dbRaw : List String) : List String :=
  (dbRaw.map stripChunkSuffix).dedup

/-- The drift report of DriftMonitor.check_drift (drift_monitor.py lines
225-241), restricted to the fields with content (timestamps omitted). -/
structure DriftReport where
  new_files : List String
  modified_files : List String
  deleted_files : List String
  total_changes : Nat
  missing_from_db : List String
  stale_in_db : List String
  alignment_issues : Nat
  needs_update : Bool
deriving DecidableEq

/-- DriftMonitor.check_drift (drift_monitor.py lines 207-250) as a
function of the current walk, the cached snapshot and the distinct store
`file` values.  (The source walks the filesystem twice, once inside
detect_changes and once directly; both walks see the same state, the
`current` parameter.)  `needs_update` starts False and is set exactly
when the total of filesystem changes and alignment issues is positive. -/
def check_drift (current cached : FileState) (dbRaw : List String) :
    DriftReport :=
  let changes := detect_changes current cached
  let current_fs_files := stateKeys current
  let db_files := get_database_files dbRaw
  let db_missing_files := current_fs_files.filter fun p => ¬ p ∈ db_files
  let db_stale_files := db_files.filter fun p => ¬ p ∈ current_fs_files
  let total_changes :=
    changes.1.length + changes.2.1.length + changes.2.2.length
  let alignment_issues := db_missing_files.length + db_stale_files.length
  { new_files := changes.1, modified_files := changes.2.1,
    deleted_files := changes.2.2, total_changes := total_changes,
    missing_from_db := db_missing_files, stale_in_db := db_stale_files,
    alignment_issues := alignment_issues,
    needs_update := decide (total_changes + alignment_issues > 0) }

/-- A scored retrieval result `(similarity, file, chunk)`
(retrieval_engine.py line 24).  The source scores with IEEE floats; the
embedding keeps the score in an ordered field, which agrees with float
comparison on every non-NaN value. -/
abbrev SearchResult := ℚ × String × String

/-- The comparison key of `results.sort(reverse=True)`
(retrieval_engine.py line 26): Python sorts the `(similarity, file,
chunk)` tuples lexicographically and `reverse=True` flips the whole
order, so the sort is ascending in the dual-lexicographic key. -/
def resultKey (x : SearchResult) : Lex (ℚᵒᵈ × Lex (Stringᵒᵈ × Stringᵒᵈ)) :=
  toLex (OrderDual.toDual x.1,
    toLex (OrderDual.toDual x.2.1, OrderDual.toDual x.2.2))

/-- The sort order of `results.sort(reverse=True)`: descending
lexicographic on the result tuples. -/
def resultRel (x y : SearchResult) : Prop := resultKey x ≤ resultKey y

instance : DecidableRel resultRel := fun x y =>
  inferInstanceAs (Decidable (resultKey x ≤ resultKey y))

instance : IsTotal SearchResult resultRel :=
  ⟨fun a b => le_total (resultKey a) (resultKey b)⟩

instance : IsTrans SearchResult resultRel :=
  ⟨fun _ _ _ hab hbc => le_trans hab hbc⟩

/-- The scoring pass of search_embeddings (retrieval_engine.py lines
20-24): one `(similarity, file, chunk)` triple per stored row.  The query
embedding comes from the external provider call on line 15 and is a
parameter; `cosine_similarity` (line 9-12) computes
`dot(a,b)/(|a|*|b|)` in numpy floats, whose square-root norms have no
exact rational form, so the scoring function is the parameter `sim` and
the ranking facts below hold for every scoring function. -/
def scoreRows (sim : Embedding → Embedding → ℚ) (queryEmbedding : Embedding)
    (rows : List Row) : List SearchResult :=
  rows.map fun r => (sim queryEmbedding r.2.2, r.1, r.2.1)

/-- search_embeddings (retrieval_engine.py lines 14-27): score every
stored row, sort descending by the result tuples and keep the first
`top_n`.  Python's list.sort is a stable sort; under the total
tuple order equal elements are fully identical, so any sorting algorithm
agreeing with the order returns the same list, here Mathlib's verified
insertion sort. -/
def search_embeddings (sim : Embedding → Embedding → ℚ)
    (queryEmbedding : Embedding) (rows : List Row) (top_n : Nat) :
    List SearchResult :=
  (List.insertionSort resultRel (scoreRows sim queryEmbedding rows)).take top_n

/-! ## Supporting lemmas -/

lemma lastIdxWhere_lt_length (p : Char → Bool) :
    ∀ (l : List Char) (i : Nat), lastIdxWhere p l = some i → i < l.length := by
  intro l
  induction l with
  | nil => intro i h; simp [lastIdxWhere] at h
  | cons c cs ih =>
    intro i h
    rw [lastIdxWhere] at h
    rcases hrec : lastIdxWhere p cs with _ | j
    · rw [hrec] at h
      by_cases hc : p c
      · simp [hc] at h
        simp only [List.length_cons]
        omega
      · simp [hc] at h
    · rw [hrec] at h
      simp only [Option.some.injEq] at h
      have := ih j hrec
      simp only [List.length_cons]
      omega

lemma lastSentCandIdx_lt_length :
    ∀ (l : List Char) (i : Nat), lastSentCandIdx l = some i → i + 1 < l.length := by
  intro l
  induction l with
  | nil => intro i h; simp [lastSentCandIdx] at h
  | cons a l ih =>
    intro i h
    rcases l with _ | ⟨b, rest⟩
    · simp [lastSentCandIdx] at h
    · rw [lastSentCandIdx] at h
      rcases hrec : lastSentCandIdx (b :: rest) with _ | j
      · rw [hrec] at h
        by_cases hc : ((a = '.' || a = '!' || a = '?') && pyIsSpace b)
        · simp [hc] at h
          subst h
          simp
        · simp [hc] at h
      · rw [hrec] at h
        simp only [Option.some.injEq] at h
        have := ih j hrec
        simp only [List.length_cons] at this ⊢
        omega

lemma findLastSentenceEnd_le (s : List Char) (m : Nat)
    (h : findLastSentenceEnd s = some m) : m ≤ s.length := by
  rw [findLastSentenceEnd] at h
  rcases hc : lastSentCandIdx s with _ | i
  · rw [hc] at h; simp at h
  · rw [hc] at h
    simp only [Option.some.injEq] at h
    have hi := lastSentCandIdx_lt_length s i hc
    have hw : ((s.drop (i + 1)).takeWhile pyIsSpace).length ≤ (s.drop (i + 1)).length :=
      ((s.drop (i + 1)).takeWhile_sublist pyIsSpace).length_le
    rw [List.length_drop] at hw
    omega

lemma paraScan_le (s : List Char) :
    ∀ (fuel p : Nat) (acc : Option Nat), s.length - p ≤ fuel →
      (∀ m, acc = some m → m ≤ s.length) →
      ∀ m, paraScan s p acc = some m → m ≤ s.length := by
  intro fuel
  induction fuel with
  | zero =>
    intro p acc hf hacc m hm
    rw [paraScan] at hm
    rw [dif_neg (by omega)] at hm
    exact hacc m hm
  | succ n ih =>
    intro p acc hf hacc m hm
    rw [paraScan] at hm
    by_cases hp : p < s.length
    · rw [dif_pos hp] at hm
      by_cases hnl : s.getD p 'A' = '\n'
      · rw [if_pos hnl] at hm
        rcases hk : lastIdxWhere (fun c => c = '\n')
            ((s.drop (p + 1)).takeWhile pyIsSpace) with _ | k
        · rw [hk] at hm
          exact ih (p + 1) acc (by omega) hacc m hm
        · rw [hk] at hm
          have hkl := lastIdxWhere_lt_length _ _ _ hk
          have hw : ((s.drop (p + 1)).takeWhile pyIsSpace).length ≤ (s.drop (p + 1)).length :=
            ((s.drop (p + 1)).takeWhile_sublist pyIsSpace).length_le
          rw [List.length_drop] at hw
          refine ih (p + k + 2) (some (p + k + 2)) (by omega) ?_ m hm
          intro m2 hm2
          simp only [Option.some.injEq] at hm2
          omega
      · rw [if_neg hnl] at hm
        exact ih (p + 1) acc (by omega) hacc m hm
    · rw [dif_neg hp] at hm
      exact hacc m hm

lemma findLastParagraphEnd_le (s : List Char) (m : Nat)
    (h : findLastParagraphEnd s = some m) : m ≤ s.length :=
  paraScan_le s s.length 0 none (by omega) (by intro m2 hm2; simp at hm2) m h

lemma findLastNewlineEnd_le (s : List Char) (m : Nat)
    (h : findLastNewlineEnd s = some m) : m ≤ s.length := by
  rw [findLastNewlineEnd] at h
  rcases hc : lastIdxWhere (fun c => c = '\n') s with _ | i
  · rw [hc] at h; simp at h
  · rw [hc] at h
    simp only [Option.some.injEq] at h
    have := lastIdxWhere_lt_length _ _ _ hc
    omega

lemma find_sentence_boundary_le (text : List Char) (a b : Nat) (hab : a ≤ b) :
    find_sentence_boundary text a b ≤ b := by
  rw [find_sentence_boundary]
  have hslice : ((text.drop a).take (b - a)).length ≤ b - a :=
    List.length_take_le _ _
  rcases h1 : findLastSentenceEnd ((text.drop a).take (b - a)) with _ | m
  · rcases h2 : findLastParagraphEnd ((text.drop a).take (b - a)) with _ | m
    · rcases h3 : findLastNewlineEnd ((text.drop a).take (b - a)) with _ | m
      · simp
      · have := findLastNewlineEnd_le _ _ h3
        simp only []
        omega
    · have := findLastParagraphEnd_le _ _ h2
      simp only []
      omega
  · have := findLastSentenceEnd_le _ _ h1
    simp only []
    omega

lemma windowEnd_le (ck : TextChunker) (text : List Char) (start : Nat) :
    windowEnd ck text start ≤ start + ck.chunk_size := by
  rw [windowEnd]
  by_cases h0 : start + ck.chunk_size < text.length
  · simp only [if_pos h0]
    have hb : find_sentence_boundary text (max start (start + ck.chunk_size - 200))
        (start + ck.chunk_size) ≤ start + ck.chunk_size :=
      find_sentence_boundary_le _ _ _ (by omega)
    split <;> omega
  · simp [h0]

/-! ## Claim theorems -/

/-- C10: FileProcessor's constructor caps the requested chunk size at 800
and the requested overlap at 150 — the chunker it builds is exactly
`TextChunker(min(chunk_size, 800), min(overlap, 150))` — and consequently
no chunk_text window of the built chunker ever spans more than 800
characters. -/
theorem fileProcessor_caps_chunker (chunk_size overlap : Nat) :
    (FileProcessor.init chunk_size overlap).chunker =
      { chunk_size := min chunk_size 800, overlap := min overlap 150 } ∧
    (FileProcessor.init chunk_size overlap).chunker.chunk_size ≤ 800 ∧
    (FileProcessor.init chunk_size overlap).chunker.overlap ≤ 150 ∧
    ∀ (text : List Char) (start : Nat),
      windowEnd (FileProcessor.init chunk_size overlap).chunker text start - start ≤ 800 := by
  refine ⟨rfl, min_le_right _ _, min_le_right _ _, ?_⟩
  intro text start
  have h := windowEnd_le (FileProcessor.init chunk_size overlap).chunker text start
  have h2 : (FileProcessor.init chunk_size overlap).chunker.chunk_size ≤ 800 :=
    min_le_right _ _
  omega

/-- C7: in the report returned by check_drift, needs_update is true
exactly when at least one of the four counts — new files, modified files,
deleted files, alignment issues — is nonzero. -/
theorem check_drift_needs_update_iff (current cached : FileState)
    (dbRaw : List String) :
    (check_drift current cached dbRaw).needs_update = true ↔
      ((check_drift current cached dbRaw).new_files.length ≠ 0 ∨
       (check_drift current cached dbRaw).modified_files.length ≠ 0 ∨
       (check_drift current cached dbRaw).deleted_files.length ≠ 0 ∨
       (check_drift current cached dbRaw).alignment_issues ≠ 0) := by
  simp only [check_drift, decide_eq_true_eq]
  omega

/-- C6: for a path present in both the cached snapshot and the current
walk, detect_changes puts it in modified exactly when the two content
hashes differ, and never in new or deleted. -/
theorem detect_changes_modified_iff (current cached : FileState) (p : String)
    (hcur : p ∈ stateKeys current) (hcac : p ∈ stateKeys cached) :
    (p ∈ (detect_changes current cached).2.1 ↔
        hashAt current p ≠ hashAt cached p) ∧
    p ∉ (detect_changes current cached).1 ∧
    p ∉ (detect_changes current cached).2.2 := by
  simp only [detect_changes]
  refine ⟨?_, ?_, ?_⟩
  · simp [List.mem_filter, hcur, hcac]
  · simp [List.mem_filter, hcac]
  · simp [List.mem_filter, hcur]

/-- Witness for C6: file A cached with hash h1 and currently hashed
h2 lands in modified and in neither new nor deleted. -/
theorem detect_changes_modified_iff_witness :
    "A" ∈ (detect_changes [("A", ⟨0, 1, "h2"⟩)] [("A", ⟨5, 2, "h1"⟩)]).2.1 ∧
    "A" ∉ (detect_changes [("A", ⟨0, 1, "h2"⟩)] [("A", ⟨5, 2, "h1"⟩)]).1 ∧
    "A" ∉ (detect_changes [("A", ⟨0, 1, "h2"⟩)] [("A", ⟨5, 2, "h1"⟩)]).2.2 := by
  have h := detect_changes_modified_iff [("A", ⟨0, 1, "h2"⟩)] [("A", ⟨5, 2, "h1"⟩)]
    "A" (by decide) (by decide)
  exact ⟨h.1.mpr (by decide), h.2.1, h.2.2⟩

/-- C3 counterexample: a store whose only row id is `a.py_summary`, with
`a.py` a currently tracked path, is reported as having the stale entry
`a.py_summary` — check_drift does not strip the `_summary` suffix, so the
claimed zero-stale alignment fails. -/
theorem check_drift_summary_row_stale :
    "a.py" ∈ stateKeys [("a.py", ⟨0, 0, "h"⟩)] ∧
    (check_drift [("a.py", ⟨0, 0, "h"⟩)] [("a.py", ⟨0, 0, "h"⟩)]
        ["a.py_summary"]).stale_in_db = ["a.py_summary"] := by
  constructor
  · decide
  · decide

/-- C3 amended: drift alignment strips only the `_chunk_` suffix (the
part before its first occurrence), never `_summary`; stale_in_db is empty
exactly when every store `file` value, after that stripping, is a path of
the current filesystem walk.  Rows named `{path}_summary` therefore
count as stale whenever the full `{path}_summary` string is not itself a
tracked path. -/
theorem check_drift_stale_empty_iff (current cached : FileState)
    (dbRaw : List String) :
    (check_drift current cached dbRaw).stale_in_db = [] ↔
      ∀ s ∈ dbRaw, stripChunkSuffix s ∈ stateKeys current := by
  simp only [check_drift, get_database_files]
  rw [List.filter_eq_nil_iff]
  constructor
  · intro h s hs
    have hmem : stripChunkSuffix s ∈ (dbRaw.map stripChunkSuffix).dedup := by
      rw [List.mem_dedup]
      exact List.mem_map_of_mem _ hs
    have := h _ hmem
    simpa using this
  · intro h a ha
    rw [List.mem_dedup, List.mem_map] at ha
    obtain ⟨s, hs, rfl⟩ := ha
    simpa using h s hs

/-- C1: evaluation of process_texts_batch on one fragment, with the
token estimator `len // 4` and a provider returning one vector per text:
exactly one row is persisted and `total_processed` ends at 1, but the
call's value is None — the function body has no return statement
(embedding_store.py ends at line 125 inside the loop), so the persisted
count is computed and then discarded rather than returned. -/
theorem process_texts_batch_returns_none :
    (process_texts_batch (fun s => s.length / 4)
        (fun ts => ts.map fun _ => [(1 : ℚ)]) [("hello", "f1")] 100).rows =
      [("f1", "hello", [(1 : ℚ)])] ∧
    (process_texts_batch (fun s => s.length / 4)
        (fun ts => ts.map fun _ => [(1 : ℚ)]) [("hello", "f1")] 100).totalProcessed = 1 ∧
    (process_texts_batch (fun s => s.length / 4)
        (fun ts => ts.map fun _ => [(1 : ℚ)]) [("hello", "f1")] 100).retVal = none := by
  refine ⟨?_, ?_, rfl⟩ <;> decide

/-- C2 counterexample: an empty Python file parses successfully with no
top-level declarations, so the structural summary is the bare header
line `File: a.py`; the Python path treats that as non-empty and the
caller inserts it as a `{path}_summary` fragment ahead of the code
chunks, contradicting the claim for the parser-based Python path. -/
theorem python_header_only_summary_inserted :
    (process_python (FileProcessor.init 1000 200) (some []) "".data "a.py").head? =
      some ("File: a.py".data, "a.py_summary") := by
  decide

/-- C2 amended: a structurally empty summary is suppressed only on the
regex-based JavaScript/TypeScript path — when all four pattern searches
find nothing, the summary is the empty string and no `{path}_summary`
fragment is inserted — while the parser-based Python path returns the
header-only summary as non-empty, and the caller inserts it as fragment
zero with id `{path}_summary`. -/
theorem summary_header_only_paths :
    (∀ (fp : FileProcessor) (m : JsMatches) (content : List Char) (filepath : String),
      m.functions = [] → m.arrows = [] → m.classes = [] → m.exports = [] →
      process_javascript fp m content filepath =
        fp.chunker.chunk_code content filepath) ∧
    (∀ (fp : FileProcessor) (content : List Char) (filepath : String),
      process_python fp (some []) content filepath =
        (("File: " ++ filepath).data, filepath ++ "_summary") ::
          fp.chunker.chunk_code content filepath) := by
  constructor
  · intro fp m content filepath h1 h2 h3 h4
    obtain ⟨f, a, c, e⟩ := m
    simp only at h1 h2 h3 h4
    subst h1 h2 h3 h4
    rw [process_javascript]
    have hjs : extract_js_structure ⟨[], [], [], []⟩ filepath = "" := by
      rw [extract_js_structure]
      simp
    rw [hjs]
    simp
  · intro fp content filepath
    have hsum : extract_python_structure (some []) filepath = "File: " ++ filepath := by
      rfl
    have hne : ("File: " ++ filepath) ≠ "" := by
      intro h
      have hlen := congrArg String.length h
      rw [String.length_append] at hlen
      have h6 : ("File: " : String).length = 6 := rfl
      have h0 : ("" : String).length = 0 := rfl
      rw [h6, h0] at hlen
      omega
    rw [process_python, hsum]
    simp [hne]

/-- Witness for the amended C2 at concrete inputs on both paths. -/
theorem summary_header_only_paths_witness :
    process_javascript (FileProcessor.init 1000 200) ⟨[], [], [], []⟩ "x".data "a.js" =
      (FileProcessor.init 1000 200).chunker.chunk_code "x".data "a.js" ∧
    process_python (FileProcessor.init 1000 200) (some []) "".data "a.py" =
      (("File: " ++ "a.py").data, "a.py" ++ "_summary") ::
        (FileProcessor.init 1000 200).chunker.chunk_code "".data "a.py" :=
  ⟨summary_header_only_paths.1 _ ⟨[], [], [], []⟩ _ _ rfl rfl rfl rfl,
   summary_header_only_paths.2 _ _ _⟩

lemma pySplitOnChar_ne_nil (c : Char) (l : List Char) :
    pySplitOnChar c l ≠ [] := by
  cases l with
  | nil => simp [pySplitOnChar]
  | cons x xs =>
    rw [pySplitOnChar]
    by_cases hx : x = c
    · simp [hx]
    · simp only [hx, if_false]
      rcases h : pySplitOnChar c xs with _ | ⟨hd, tl⟩ <;> simp

lemma chunkCodeGo_ne_nil (ck : TextChunker) (src : String) :
    ∀ (lines cur : List (List Char)) (size num : Nat),
      lines ≠ [] ∨ cur ≠ [] →
      chunkCodeGo ck src lines cur size num ≠ [] := by
  intro lines
  induction lines with
  | nil =>
    intro cur size num h
    rcases h with h | h
    · exact absurd rfl h
    · simp [chunkCodeGo, h]
  | cons line rest ih =>
    intro cur size num _
    rw [chunkCodeGo]
    by_cases hc : size + lineSize line > ck.chunk_size ∧ cur ≠ []
    · simp only [if_pos hc]
      split <;> simp
    · simp only [if_neg hc]
      exact ih (cur ++ [line]) _ _ (Or.inr (by simp))

lemma chunkCodeGo_mem_ne_nil (ck : TextChunker) (src : String) :
    ∀ (lines cur : List (List Char)) (size num : Nat)
      (p : List (List Char) × String),
      p ∈ chunkCodeGo ck src lines cur size num → p.1 ≠ [] := by
  intro lines
  induction lines with
  | nil =>
    intro cur size num p hp
    rw [chunkCodeGo] at hp
    by_cases hc : cur ≠ []
    · simp only [if_pos hc, List.mem_singleton] at hp
      subst hp
      exact hc
    · simp [if_neg hc] at hp
  | cons line rest ih =>
    intro cur size num p hp
    rw [chunkCodeGo] at hp
    by_cases hc : size + lineSize line > ck.chunk_size ∧ cur ≠ []
    · simp only [if_pos hc, List.mem_cons] at hp
      rcases hp with hp | hp
      · subst hp
        exact hc.2
      · rcases hfs : is_function_start line with _ | _
        · rw [hfs] at hp
          simp only [Bool.false_eq_true, if_false] at hp
          exact ih _ _ _ p hp
        · rw [hfs] at hp
          simp only [if_true] at hp
          exact ih _ _ _ p hp
    · simp only [if_neg hc] at hp
      exact ih _ _ _ p hp

/-- C9: chunk_code (at the granularity of the line lists it joins into
fragments) never emits a fragment with zero lines, and for every input —
including when the accumulated size stays below chunk_size — the pending
final fragment is emitted, so the result is never empty. -/
theorem chunk_code_fragments_nonempty (ck : TextChunker) (code : List Char)
    (sourceInfo : String) :
    ck.chunkCodeChunks code sourceInfo ≠ [] ∧
    ∀ p ∈ ck.chunkCodeChunks code sourceInfo, p.1 ≠ [] := by
  constructor
  · exact chunkCodeGo_ne_nil ck sourceInfo _ [] 0 0
      (Or.inl (pySplitOnChar_ne_nil '\n' code))
  · intro p hp
    exact chunkCodeGo_mem_ne_nil ck sourceInfo _ [] 0 0 p hp

/-- Witness for C9 on the empty input: the final (only) pending fragment
is emitted even though its size is far below the threshold. -/
theorem chunk_code_fragments_nonempty_witness :
    (TextChunker.mk 800 150).chunkCodeChunks "".data "f" ≠ [] ∧
    ∀ p ∈ (TextChunker.mk 800 150).chunkCodeChunks "".data "f", p.1 ≠ [] :=
  chunk_code_fragments_nonempty (TextChunker.mk 800 150) "".data "f"

lemma tokSum_append (est : String → Nat) (a b : List (String × String)) :
    tokSum est (a ++ b) = tokSum est a + tokSum est b := by
  simp [tokSum]

lemma processBatchGo_calls (est : String → Nat)
    (provider : List String → List Embedding) :
    ∀ (rest cur : List (String × String)) (curTok : Nat),
      curTok = tokSum est cur →
      (cur ≠ [] → tokSum est cur ≤ 4000 ∨ cur.length = 1) →
      ∀ b ∈ (processBatchGo est provider rest cur curTok).2.2,
        b ≠ [] ∧ (4000 < tokSum est b → b.length = 1) := by
  intro rest
  induction rest with
  | nil =>
    intro cur curTok htok hinv b hb
    rw [processBatchGo] at hb
    by_cases hc : cur ≠ []
    · simp only [if_pos hc, List.mem_singleton] at hb
      subst hb
      refine ⟨hc, fun hover => ?_⟩
      rcases hinv hc with h | h
      · omega
      · exact h
    · simp [if_neg hc] at hb
  | cons frag rest ih =>
    intro cur curTok htok hinv b hb
    obtain ⟨t, m⟩ := frag
    rw [processBatchGo] at hb
    by_cases hc : curTok + est t > 4000 ∧ cur ≠ []
    · simp only [if_pos hc, List.mem_cons] at hb
      rcases hb with hb | hb
      · subst hb
        refine ⟨hc.2, fun hover => ?_⟩
        rcases hinv hc.2 with h | h
        · omega
        · exact h
      · refine ih [(t, m)] (est t) (by simp [tokSum]) (fun _ => Or.inr rfl) b hb
    · simp only [if_neg hc] at hb
      refine ih (cur ++ [(t, m)]) (curTok + est t) ?_ ?_ b hb
      · rw [tokSum_append, htok]
        simp [tokSum]
      · intro _
        rcases Decidable.not_and_iff_or_not.mp hc with h | h
        · left
          rw [tokSum_append, ← htok]
          simp only [tokSum, List.map_cons, List.map_nil, List.sum_cons, List.sum_nil]
          omega
        · right
          have : cur = [] := by
            by_contra hne
            exact h hne
          subst this
          simp

/-- C5: every sub-batch process_texts_batch sends to the embedding
provider is non-empty, and a sub-batch whose estimated token total
exceeds the 4000-token budget contains exactly one fragment — the running
sub-batch is closed exactly when adding the next fragment would exceed
the budget while the sub-batch is non-empty, so a single oversized
fragment always travels alone. -/
theorem process_sub_batches_sound (est : String → Nat)
    (provider : List String → List Embedding)
    (texts_with_metadata : List (String × String)) (batch_size : Nat) :
    ∀ b ∈ (process_texts_batch est provider texts_with_metadata batch_size).calls,
      b ≠ [] ∧ (4000 < tokSum est b → b.length = 1) := by
  intro b hb
  simp only [process_texts_batch] at hb
  revert hb
  generalize houter : outerBatches batch_size texts_with_metadata = batches
  suffices h : ∀ (acc : List Row × Nat × List (List (String × String))),
      (∀ c ∈ acc.2.2, c ≠ [] ∧ (4000 < tokSum est c → c.length = 1)) →
      b ∈ (batches.foldl
        (fun acc batch =>
          let r := processBatchGo est provider batch [] 0
          (acc.1 ++ r.1, acc.2.1 + r.2.1, acc.2.2 ++ r.2.2)) acc).2.2 →
      b ≠ [] ∧ (4000 < tokSum est b → b.length = 1) by
    intro hb
    exact h ([], 0, []) (by simp) hb
  clear houter
  induction batches with
  | nil =>
    intro acc hacc hb
    simpa using hacc b hb
  | cons batch batches ih =>
    intro acc hacc hb
    rw [List.foldl_cons] at hb
    refine ih _ ?_ hb
    intro c hc
    rcases List.mem_append.mp hc with h | h
    · exact hacc c h
    · exact processBatchGo_calls est provider batch [] 0 rfl (by simp) c h

/-- Witness for C5: the singleton sub-batch actually sent for one small
fragment is non-empty (and vacuously satisfies the oversize clause). -/
theorem process_sub_batches_sound_witness :
    ([("aaaa", "m")] : List (String × String)) ≠ [] ∧
      (4000 < tokSum (fun s => s.length) [("aaaa", "m")] →
        ([("aaaa", "m")] : List (String × String)).length = 1) :=
  process_sub_batches_sound (fun s => s.length)
    (fun ts => ts.map fun _ => []) [("aaaa", "m")] 100 [("aaaa", "m")] (by decide)

lemma resultRel_fst_le (x y : SearchResult) (h : resultRel x y) : y.1 ≤ x.1 := by
  rw [resultRel, resultKey, resultKey, Prod.Lex.le_iff] at h
  rcases h with h | ⟨h1, _⟩
  · exact le_of_lt (by simpa using h)
  · have hx : x.1 = y.1 := by simpa using h1
    exact le_of_eq hx.symm

/-- C8: search_embeddings returns at most top_n results and every
adjacent pair of results has non-increasing similarity — the stored rows
are scored, sorted descending and truncated, for every choice of scoring
function and query embedding. -/
theorem search_embeddings_ranked (sim : Embedding → Embedding → ℚ)
    (queryEmbedding : Embedding) (rows : List Row) (top_n : Nat) :
    (search_embeddings sim queryEmbedding rows top_n).length ≤ top_n ∧
    List.Chain' (fun a b : SearchResult => b.1 ≤ a.1)
      (search_embeddings sim queryEmbedding rows top_n) := by
  constructor
  · exact List.length_take_le _ _
  · have hs : List.Sorted resultRel
        (List.insertionSort resultRel (scoreRows sim queryEmbedding rows)) :=
      List.sorted_insertionSort _ _
    have hp : List.Pairwise resultRel
        (search_embeddings sim queryEmbedding rows top_n) :=
      hs.sublist (List.take_sublist _ _)
    exact (hp.imp fun h => resultRel_fst_le _ _ h).chain'

lemma chunkTextGo_chain (ck : TextChunker) (text : List Char) (src : String) :
    ∀ (fuel s n : Nat), text.length - s ≤ fuel →
      List.Chain' (fun a b => a < b) (chunkTextGo ck text src s n).2 := by
  intro fuel
  induction fuel with
  | zero =>
    intro s n hf
    rw [chunkTextGo]
    have hs : ¬ s < text.length := by omega
    simp [hs]
  | succ m ih =>
    intro s n hf
    by_cases hs : s < text.length
    · rw [chunkTextGo]
      simp only [if_pos hs]
      rw [List.chain'_cons']
      have hnext : s + 1 ≤ nextStart ck text s := le_max_left _ _
      refine ⟨?_, ih (nextStart ck text s) _ (by omega)⟩
      intro y hy
      rw [chunkTextGo] at hy
      by_cases hn : nextStart ck text s < text.length
      · simp only [if_pos hn, List.head?_cons, Option.mem_some_iff] at hy
        omega
      · simp [if_neg hn] at hy
    · rw [chunkTextGo]
      simp [hs]

lemma chunkTextGo_length (ck : TextChunker) (text : List Char) (src : String) :
    ∀ (fuel s n : Nat), text.length - s ≤ fuel →
      ((chunkTextGo ck text src s n).2).length ≤ text.length - s := by
  intro fuel
  induction fuel with
  | zero =>
    intro s n hf
    rw [chunkTextGo]
    have hs : ¬ s < text.length := by omega
    simp [hs]
  | succ m ih =>
    intro s n hf
    by_cases hs : s < text.length
    · rw [chunkTextGo]
      simp only [if_pos hs, List.length_cons]
      have hnext : s + 1 ≤ nextStart ck text s := le_max_left _ _
      have := ih (nextStart ck text s)
        (if pyStrip ((text.drop s).take (windowEnd ck text s - s)) ≠ [] then n + 1 else n)
        (by omega)
      omega
    · rw [chunkTextGo]
      simp [hs]

/-- C4: on a text longer than chunk_size (with overlap below chunk_size),
chunk_text runs the sliding-window loop, the trace of window start
offsets is strictly increasing — each new start is
`max(start+1, end-overlap)` — and the number of window iterations is
bounded by the text length, so the loop terminates. -/
theorem chunk_text_terminates_increasing (ck : TextChunker) (text : List Char)
    (src : String) (hlen : ck.chunk_size < text.length)
    (hov : ck.overlap < ck.chunk_size) :
    TextChunker.chunk_text ck text src = (chunkTextGo ck text src 0 0).1 ∧
    List.Chain' (fun a b => a < b) (chunkTextStarts ck text src) ∧
    (chunkTextStarts ck text src).length ≤ text.length := by
  refine ⟨?_, ?_, ?_⟩
  · rw [TextChunker.chunk_text, if_neg (by omega)]
  · exact chunkTextGo_chain ck text src text.length 0 0 (by omega)
  · have h := chunkTextGo_length ck text src text.length 0 0 (by omega)
    rw [chunkTextStarts]
    omega

/-- Witness for C4 on a concrete 8-character text with chunk_size 5 and
overlap 2. -/
theorem chunk_text_terminates_increasing_witness :
    TextChunker.chunk_text ⟨5, 2⟩ "abcdefgh".data "s" =
      (chunkTextGo ⟨5, 2⟩ "abcdefgh".data "s" 0 0).1 ∧
    List.Chain' (fun a b => a < b) (chunkTextStarts ⟨5, 2⟩ "abcdefgh".data "s") ∧
    (chunkTextStarts ⟨5, 2⟩ "abcdefgh".data "s").length ≤ ("abcdefgh".data).length :=
  chunk_text_terminates_increasing ⟨5, 2⟩ "abcdefgh".data "s" (by decide) (by decide)

end ClaudeBrain
